import Mathlib

/-!
Shallow embedding of the memorhythm game core:
constants (`src/constants.ts`), data types (`src/types.ts`), the seeded
LCG random generator (`src/unnamed/part_004`), the game logic
(`src/services/gameLogic.ts`: `generateSequence`,
`calculateFrequencyFromY`, `calculateScore`) and the round-progression
slice of the `App.vue` controller (`startNewRound`, `handleNextRound`).

JavaScript numbers are modelled as real numbers (`ℝ`); the RNG state,
which the source keeps integral, is modelled as `ℕ` with explicit
`% 2 ^ 32`, and its output as an exact rational.  `Math.random` is
modelled as an ambient stream `r : ℕ → ℝ` of draws consumed in source
order.  `Math.round` is round-half-up, which is Mathlib's `round`.
-/

set_option maxRecDepth 8000

namespace Memorhythm

/-! ### Constants (`src/constants.ts`) -/

/-- Values of the `MUSICAL_SCALE` object: C major pentatonic, C4..C5. -/
noncomputable def MUSICAL_SCALE : List ℝ := [261.63, 293.66, 329.63, 392.00, 440.00, 523.25]

def PALETTE : List String :=
  ["#f87171", "#fb923c", "#fbbf24", "#a3e635", "#4ade80",
   "#2dd4bf", "#22d3ee", "#60a5fa", "#a78bfa", "#f472b6"]

noncomputable def GAME_BPM : ℝ := 120

noncomputable def QUARTER_NOTE_MS : ℝ := 60000 / GAME_BPM

noncomputable def EIGHTH_NOTE_MS : ℝ := QUARTER_NOTE_MS / 2

noncomputable def RHYTHM_INTERVALS : List ℝ := [QUARTER_NOTE_MS, QUARTER_NOTE_MS, EIGHTH_NOTE_MS]

noncomputable def MAX_POSITION_ERROR_PX : ℝ := 150

noncomputable def MAX_RHYTHM_ERROR_MS : ℝ := 300

noncomputable def CIRCLE_RADIUS : ℝ := 30

noncomputable def X_PADDING : ℝ := 100

noncomputable def Y_PADDING : ℝ := 100

/-! ### Data types (`src/types.ts`) -/

inductive GameState where
  | Idle
  | Playback
  | PlayerTurn
  | Calculating
  | Scoring
deriving DecidableEq

structure CircleDefinition where
  id : ℕ
  x : ℝ
  y : ℝ
  color : String
  frequency : ℝ
  time : ℝ

structure PlayerClick where
  x : ℝ
  y : ℝ
  time : ℝ

structure Score where
  position : ℤ
  rhythm : ℤ
  total : ℤ
deriving DecidableEq

/-! ### Seeded random generator (`src/unnamed/part_004`) -/

structure SeededRandom where
  seed : ℕ

/-- Models `constructor(seed: number = 12345)`. -/
def mkSeededRandom (seed : ℕ := 12345) : SeededRandom := ⟨seed⟩

/-- One step of the LCG state update performed by `next()`:
`this.seed = (this.seed * 1664525 + 1013904223) % 2^32`. -/
def lcgStep (s : ℕ) : ℕ := (s * 1664525 + 1013904223) % 2 ^ 32

/-- Models `next()`: updates the state and returns `this.seed / 2^32`
(exact in the source, since the state fits in 32 bits). -/
def SeededRandom.next (g : SeededRandom) : ℚ × SeededRandom :=
  let s := lcgStep g.seed
  ((s : ℚ) / 2 ^ 32, ⟨s⟩)

/-- Models `reset(newSeed?: number)`: `this.seed = newSeed ?? 12345`. -/
def SeededRandom.reset (_g : SeededRandom) (newSeed : Option ℕ) : SeededRandom :=
  ⟨newSeed.getD 12345⟩

/-- The list of outputs of `n` successive calls to `next()`. -/
def drawN : SeededRandom → ℕ → List ℚ
  | _, 0 => []
  | g, Nat.succ n => (g.next).1 :: drawN (g.next).2 n

/-! ### Module-level scale data (`src/services/gameLogic.ts`, top of file) -/

/-- Models `Object.values(MUSICAL_SCALE)`. -/
noncomputable def scaleFrequencies : List ℝ := MUSICAL_SCALE

/-- Models `Math.min(...)` over a nonempty spread list (the source applies it to
the six scale frequencies). -/
noncomputable def listMin : List ℝ → ℝ
  | [] => 0
  | [a] => a
  | a :: b :: rest => min a (listMin (b :: rest))

/-- Models `Math.max(...)` over a nonempty spread list. -/
noncomputable def listMax : List ℝ → ℝ
  | [] => 0
  | [a] => a
  | a :: b :: rest => max a (listMax (b :: rest))

noncomputable def minFreq : ℝ := listMin scaleFrequencies

noncomputable def maxFreq : ℝ := listMax scaleFrequencies

noncomputable def freqRange : ℝ := maxFreq - minFreq

/-! ### `generateSequence` (`src/services/gameLogic.ts`) -/

/-- Loop body of `generateSequence`.  `r` is the `Math.random` stream and
`k` the index of the next unconsumed draw; `i` is the loop counter,
`t` the running `currentTime`, and `fuel` the number of remaining
iterations (`count - i`).  Draws are consumed in source order:
x-jitter (only when `count ≠ 1`), frequency index, y-jitter, and the
rhythm interval (only when `i > 0`). -/
noncomputable def genLoop (r : ℕ → ℝ) (count : ℕ) (w h xStep availableHeight : ℝ) :
    (fuel i k : ℕ) → (t : ℝ) → List CircleDefinition
  | 0, _, _, _ => []
  | Nat.succ fuel, i, k, t =>
    let x : ℝ := if count = 1 then w / 2 else X_PADDING + i * xStep + (r k - 0.5) * xStep * 0.15
    let k₁ : ℕ := if count = 1 then k else k + 1
    let frequency := scaleFrequencies.getD (Nat.floor (r k₁ * scaleFrequencies.length)) 0
    let normalizedFreq := if 0 < freqRange then (frequency - minFreq) / freqRange else 0.5
    let yJitter := (r (k₁ + 1) - 0.5) * 50
    let y := (h - Y_PADDING) - normalizedFreq * availableHeight + yJitter
    let color := PALETTE.getD (i % PALETTE.length) ""
    let t' := if 0 < i then
        t + RHYTHM_INTERVALS.getD (Nat.floor (r (k₁ + 2) * RHYTHM_INTERVALS.length)) 0
      else t
    let k' : ℕ := if 0 < i then k₁ + 3 else k₁ + 2
    let clampedX := max CIRCLE_RADIUS (min (w - CIRCLE_RADIUS) x)
    let clampedY := max CIRCLE_RADIUS (min (h - CIRCLE_RADIUS) y)
    ⟨i, clampedX, clampedY, color, frequency, t'⟩ ::
      genLoop r count w h xStep availableHeight fuel (i + 1) k' t'

/-- Models `generateSequence(count, canvasWidth, canvasHeight)`, with the
`Math.random` stream `r` made explicit. -/
noncomputable def generateSequence (count : ℕ) (canvasWidth canvasHeight : ℝ) (r : ℕ → ℝ) :
    List CircleDefinition :=
  let availableWidth := canvasWidth - X_PADDING * 2
  let availableHeight := canvasHeight - Y_PADDING * 2
  let xStep := if 1 < count then availableWidth / ((count : ℝ) - 1) else 0
  genLoop r count canvasWidth canvasHeight xStep availableHeight count 0 0 0

/-! ### `calculateFrequencyFromY` (`src/services/gameLogic.ts`) -/

noncomputable def calculateFrequencyFromY (y canvasHeight : ℝ) : ℝ :=
  let availableHeight := canvasHeight - Y_PADDING * 2
  if availableHeight ≤ 0 then minFreq
  else
    let clampedY := max Y_PADDING (min (canvasHeight - Y_PADDING) y)
    let normalizedY := ((canvasHeight - Y_PADDING) - clampedY) / availableHeight
    let frequency := minFreq + freqRange * normalizedY
    max minFreq (min maxFreq frequency)

/-! ### `calculateScore` (`src/services/gameLogic.ts`) -/

/-- Models `Math.hypot(dx, dy)`. -/
noncomputable def hypot (dx dy : ℝ) : ℝ := Real.sqrt (dx ^ 2 + dy ^ 2)

/-- Models `Math.hypot(click.x - circle.x, click.y - circle.y)`. -/
noncomputable def clickDistance (click : PlayerClick) (circle : CircleDefinition) : ℝ :=
  hypot (click.x - circle.x) (click.y - circle.y)

/-- The inner `unmatchedSequence.forEach` scan: starting from a current
best `(closestCircleIndex, minDistance)` pair, fold over the remaining
circles (with `i` the index of the next one), replacing the best on a
strictly smaller distance.  The source initializes the scan with
`(-1, Infinity)`; on a nonempty pool the first circle always wins
against `Infinity`, so the scan is modelled as starting from index 0
with the first circle's distance. -/
noncomputable def findClosestAux (click : PlayerClick) :
    List CircleDefinition → ℕ → ℕ × ℝ → ℕ × ℝ
  | [], _, best => best
  | c :: rest, i, best =>
    if clickDistance click c < best.2 then findClosestAux click rest (i + 1) (i, clickDistance click c)
    else findClosestAux click rest (i + 1) best

/-- The `playerClicks.forEach` loop of the position phase, state-passed as
`(totalPositionScore, unmatchedSequence)`: an empty pool skips the
click, otherwise the closest unmatched circle is scored with
`max(0, 100 * (1 - minDistance / maxPosError))` and spliced out. -/
noncomputable def matchClicks (maxPosError : ℝ) :
    List PlayerClick → ℝ × List CircleDefinition → ℝ × List CircleDefinition
  | [], acc => acc
  | click :: restClicks, (total, unmatched) =>
    match unmatched with
    | [] => matchClicks maxPosError restClicks (total, [])
    | u :: us =>
      let best := findClosestAux click us 1 (0, clickDistance click u)
      matchClicks maxPosError restClicks
        (total + max 0 (100 * (1 - best.2 / maxPosError)), (u :: us).eraseIdx best.1)

/-- The source's `totalPositionScore` after the matching loop, starting from `0` and a
pool `[...sequence]`. -/
noncomputable def totalPositionScore (sequence : List CircleDefinition)
    (playerClicks : List PlayerClick) (maxPosError : ℝ) : ℝ :=
  (matchClicks maxPosError playerClicks (0, sequence)).1

/-- Models `avgPositionScore = totalPositionScore / sequence.length`. -/
noncomputable def avgPositionScore (sequence : List CircleDefinition)
    (playerClicks : List PlayerClick) (maxPosError : ℝ) : ℝ :=
  totalPositionScore sequence playerClicks maxPosError / (sequence.length : ℝ)

/-- Models `originalIntervals`: `sequence[i].time - sequence[0].time` for `i ≥ 1`. -/
noncomputable def originalIntervals : List CircleDefinition → List ℝ
  | [] => []
  | s0 :: rest => rest.map fun c => c.time - s0.time

/-- Models `playerIntervals`: `playerClicks[i].time - playerClicks[0].time` for `i ≥ 1`. -/
noncomputable def playerIntervals : List PlayerClick → List ℝ
  | [] => []
  | c0 :: rest => rest.map fun c => c.time - c0.time

/-- The rhythm sub-score: pairwise interval errors over
`min(originalIntervals.length, playerIntervals.length)` indices, each
scored `max(0, 100 * (1 - |error| / maxRhythmError))`, summed and
divided by `sequence.length - 1`; when either list has fewer than two
elements the source's else-branch sets rhythm to `100`. -/
noncomputable def avgRhythmScore (sequence : List CircleDefinition)
    (playerClicks : List PlayerClick) (maxRhythmError : ℝ) : ℝ :=
  if 1 < sequence.length ∧ 1 < playerClicks.length then
    (List.zipWith (fun p o => max 0 (100 * (1 - |p - o| / maxRhythmError)))
        (playerIntervals playerClicks) (originalIntervals sequence)).sum
      / ((sequence.length : ℝ) - 1)
  else 100

/-- Models `calculateScore(sequence, playerClicks, maxPosError, maxRhythmError)`. -/
noncomputable def calculateScore (sequence : List CircleDefinition)
    (playerClicks : List PlayerClick) (maxPosError maxRhythmError : ℝ) : Score :=
  if playerClicks.length = 0 ∨ sequence.length = 0 then ⟨0, 0, 0⟩
  else if 1 < sequence.length ∧ 1 < playerClicks.length then
    ⟨round (avgPositionScore sequence playerClicks maxPosError),
     round (avgRhythmScore sequence playerClicks maxRhythmError),
     round ((avgPositionScore sequence playerClicks maxPosError
             + avgRhythmScore sequence playerClicks maxRhythmError) / 2)⟩
  else
    ⟨round (avgPositionScore sequence playerClicks maxPosError), 100,
     round (avgPositionScore sequence playerClicks maxPosError)⟩

/-! ### Mutation-explicit view of `calculateScore`

The source's matching loop mutates a local array `unmatchedSequence`
initialized to a spread copy `[...sequence]` and only reads `sequence`
and `playerClicks`.  To state the frame property, the caller-visible
arrays and the local copy are carried in an explicit state record and each
loop iteration is a state update. -/

structure ScoreState where
  sequence : List CircleDefinition
  playerClicks : List PlayerClick
  unmatchedSequence : List CircleDefinition
  totalPositionScore : ℝ

/-- One iteration of `playerClicks.forEach`: the splice targets the
`unmatchedSequence` field only. -/
noncomputable def scoreStep (maxPosError : ℝ) (st : ScoreState) (click : PlayerClick) :
    ScoreState :=
  match st.unmatchedSequence with
  | [] => st
  | u :: us =>
    let best := findClosestAux click us 1 (0, clickDistance click u)
    { st with
      totalPositionScore := st.totalPositionScore + max 0 (100 * (1 - best.2 / maxPosError)),
      unmatchedSequence := (u :: us).eraseIdx best.1 }

/-- Models `calculateScore` with the array state threaded through explicitly;
returns the score together with the final state of the arrays the
caller can observe. -/
noncomputable def calculateScoreSt (sequence : List CircleDefinition)
    (playerClicks : List PlayerClick) (maxPosError maxRhythmError : ℝ) :
    Score × ScoreState :=
  let st0 : ScoreState := ⟨sequence, playerClicks, sequence, 0⟩
  if playerClicks.length = 0 ∨ sequence.length = 0 then (⟨0, 0, 0⟩, st0)
  else
    let st1 := st0.playerClicks.foldl (scoreStep maxPosError) st0
    let avgPos := st1.totalPositionScore / (sequence.length : ℝ)
    if 1 < sequence.length ∧ 1 < playerClicks.length then
      (⟨round avgPos, round (avgRhythmScore sequence playerClicks maxRhythmError),
        round ((avgPos + avgRhythmScore sequence playerClicks maxRhythmError) / 2)⟩, st1)
    else
      (⟨round avgPos, 100, round avgPos⟩, st1)

/-! ### Round progression (`src/App.vue`) -/

structure AppState where
  gameState : GameState
  sequence : List CircleDefinition
  playerClicks : List PlayerClick
  score : Option Score
  round : ℕ
  width : ℝ
  height : ℝ

/-- Models `startNewRound(targetRound)`: clears clicks and score, generates a
sequence of length `2 + targetRound` for the current canvas
dimensions, and enters `Playback`. -/
noncomputable def startNewRound (r : ℕ → ℝ) (st : AppState) (targetRound : ℕ) : AppState :=
  let sequenceLength := 2 + targetRound
  { st with
    playerClicks := [],
    score := none,
    sequence := generateSequence sequenceLength st.width st.height r,
    gameState := GameState.Playback }

/-- The pass/fail gate read off the computed score in `handleNextRound`:
`score.total < 50 || score.position < 30 || score.rhythm < 30`. -/
def scoreFailed (sc : Score) : Bool :=
  sc.total < 50 || sc.position < 30 || sc.rhythm < 30

/-- Models `handleNextRound()`: `failed` is falsy when no score is present;
`nextRound` resets to 1 on failure and increments otherwise; the round
ref is updated and `startNewRound(nextRound)` runs. -/
noncomputable def handleNextRound (r : ℕ → ℝ) (st : AppState) : AppState :=
  let failed : Bool := match st.score with
    | some sc => scoreFailed sc
    | none => false
  let nextRound := if failed then 1 else st.round + 1
  startNewRound r { st with round := nextRound } nextRound

/-! ### Helper lemmas -/

lemma round_hundred : round (100 : ℝ) = 100 := by
  rw [show (100 : ℝ) = ((100 : ℤ) : ℝ) by norm_num, round_intCast]

lemma minFreq_eq : minFreq = 261.63 := by
  simp only [minFreq, scaleFrequencies, MUSICAL_SCALE, listMin]
  norm_num [min_def]

lemma maxFreq_eq : maxFreq = 523.25 := by
  simp only [maxFreq, scaleFrequencies, MUSICAL_SCALE, listMax]
  norm_num [max_def]

lemma freqRange_eq : freqRange = 261.62 := by
  rw [freqRange, minFreq_eq, maxFreq_eq]; norm_num

/-! ### Claim theorems -/

/-- Claim C3: two independently constructed `SeededRandom` instances with
the same seed produce identical sequences of `next()` outputs for any
number of draws.  In the embedding the generator is a pure function of
its state, so the two runs are literally the same computation. -/
theorem rng_determinism (S N : ℕ) : drawN (mkSeededRandom S) N = drawN (mkSeededRandom S) N :=
  rfl

/-- Claim C4: one `next()` call from state `s < 2^32` moves the state to
`(s * 1664525 + 1013904223) % 2^32`, returns that new state divided by
`2^32`, the return value lies in `[0, 1)`, and the integer expression
`s * 1664525 + 1013904223` stays below `2^53` (the exactly-representable
range of the source's floating-point numbers). -/
theorem lcg_next_spec (s : ℕ) (hs : s < 2 ^ 32) :
    ((SeededRandom.mk s).next).2.seed = (s * 1664525 + 1013904223) % 2 ^ 32 ∧
    ((SeededRandom.mk s).next).1 = (((s * 1664525 + 1013904223) % 2 ^ 32 : ℕ) : ℚ) / 2 ^ 32 ∧
    0 ≤ ((SeededRandom.mk s).next).1 ∧ ((SeededRandom.mk s).next).1 < 1 ∧
    s * 1664525 + 1013904223 < 2 ^ 53 := by
  have hmod : lcgStep s < 2 ^ 32 := Nat.mod_lt _ (by norm_num)
  refine ⟨rfl, rfl, ?_, ?_, ?_⟩
  · show (0 : ℚ) ≤ (lcgStep s : ℚ) / 2 ^ 32
    exact div_nonneg (Nat.cast_nonneg _) (by norm_num)
  · show ((lcgStep s : ℚ) / 2 ^ 32) < 1
    rw [div_lt_one (by norm_num)]
    exact_mod_cast hmod
  · have h32 : (2 : ℕ) ^ 32 = 4294967296 := by norm_num
    have h53 : (2 : ℕ) ^ 53 = 9007199254740992 := by norm_num
    rw [h32] at hs
    rw [h53]
    omega

/-- Witness for C4 at the source's default seed `12345`. -/
theorem lcg_next_spec_witness :
    12345 < 2 ^ 32 ∧
    (((SeededRandom.mk 12345).next).2.seed = (12345 * 1664525 + 1013904223) % 2 ^ 32 ∧
     ((SeededRandom.mk 12345).next).1
        = (((12345 * 1664525 + 1013904223) % 2 ^ 32 : ℕ) : ℚ) / 2 ^ 32 ∧
     0 ≤ ((SeededRandom.mk 12345).next).1 ∧ ((SeededRandom.mk 12345).next).1 < 1 ∧
     12345 * 1664525 + 1013904223 < 2 ^ 53) :=
  ⟨by norm_num, lcg_next_spec 12345 (by norm_num)⟩

/-- Claim C7: with an empty target list or an empty input list (any
combination of lengths included), `calculateScore` returns the all-zero
score; the embedding is a total function, so no error is raised. -/
theorem empty_lists_zero_score (s : List CircleDefinition) (c : List PlayerClick)
    (mp mr : ℝ) (h : s = [] ∨ c = []) : calculateScore s c mp mr = ⟨0, 0, 0⟩ := by
  rcases h with h | h <;> subst h <;> simp [calculateScore]

/-- Witness for C7 with both lists empty. -/
theorem empty_lists_zero_score_witness :
    (([] : List CircleDefinition) = [] ∨ ([] : List PlayerClick) = []) ∧
    calculateScore [] [] 150 300 = ⟨0, 0, 0⟩ :=
  ⟨Or.inl rfl, empty_lists_zero_score [] [] 150 300 (Or.inl rfl)⟩

/-- Claim C9: when the usable vertical band `canvasHeight - 2 * Y_PADDING`
is zero or negative, `calculateFrequencyFromY` returns the scale's
minimum frequency through the early branch, so the normalization
division is never reached. -/
theorem degenerate_band_min_freq (y h : ℝ) (hband : h - 2 * Y_PADDING ≤ 0) :
    calculateFrequencyFromY y h = minFreq := by
  have hA : h - Y_PADDING * 2 ≤ 0 := by linarith
  simp only [calculateFrequencyFromY, if_pos hA]

/-- Witness for C9 at `y = 50`, `canvasHeight = 150`. -/
theorem degenerate_band_min_freq_witness :
    (150 : ℝ) - 2 * Y_PADDING ≤ 0 ∧ calculateFrequencyFromY 50 150 = minFreq :=
  ⟨by rw [Y_PADDING]; norm_num, degenerate_band_min_freq 50 150 (by rw [Y_PADDING]; norm_num)⟩

/-- Claim C8: for `y` inside the usable band and a positive band height,
the returned frequency satisfies the linear round-trip that recovers
the normalized vertical position. -/
theorem freq_round_trip (y h : ℝ) (hy1 : Y_PADDING ≤ y) (hy2 : y ≤ h - Y_PADDING)
    (hband : 0 < h - 2 * Y_PADDING) :
    (calculateFrequencyFromY y h - minFreq) / (maxFreq - minFreq)
      = ((h - Y_PADDING) - y) / (h - 2 * Y_PADDING) := by
  have hden : (0 : ℝ) < h - Y_PADDING * 2 := by linarith
  have hA : ¬h - Y_PADDING * 2 ≤ 0 := by linarith
  have hclamp : max Y_PADDING (min (h - Y_PADDING) y) = y := by
    rw [min_eq_right hy2, max_eq_right hy1]
  have hfr : freqRange = maxFreq - minFreq := rfl
  have hfrpos : (0 : ℝ) < freqRange := by rw [freqRange_eq]; norm_num
  have hnY0 : 0 ≤ ((h - Y_PADDING) - y) / (h - Y_PADDING * 2) :=
    div_nonneg (by linarith) hden.le
  have hnY1 : ((h - Y_PADDING) - y) / (h - Y_PADDING * 2) ≤ 1 := by
    rw [div_le_one hden]; linarith
  simp only [calculateFrequencyFromY, if_neg hA, hclamp]
  have hle : minFreq + freqRange * (((h - Y_PADDING) - y) / (h - Y_PADDING * 2)) ≤ maxFreq := by
    have := mul_le_of_le_one_right hfrpos.le hnY1
    linarith [hfr]
  have hge : minFreq ≤ minFreq + freqRange * (((h - Y_PADDING) - y) / (h - Y_PADDING * 2)) := by
    have := mul_nonneg hfrpos.le hnY0
    linarith
  rw [min_eq_right hle, max_eq_right hge]
  have hne : maxFreq - minFreq ≠ 0 := by rw [← hfr]; exact hfrpos.ne'
  have hdne : h - Y_PADDING * 2 ≠ 0 := hden.ne'
  have hdne2 : h - 2 * Y_PADDING ≠ 0 := hband.ne'
  field_simp
  rw [← hfr]
  ring

/-- Witness for C8 at `y = 150`, `canvasHeight = 400`. -/
theorem freq_round_trip_witness :
    Y_PADDING ≤ (150 : ℝ) ∧ (150 : ℝ) ≤ 400 - Y_PADDING ∧ (0 : ℝ) < 400 - 2 * Y_PADDING ∧
    (calculateFrequencyFromY 150 400 - minFreq) / (maxFreq - minFreq)
      = ((400 - Y_PADDING) - 150) / (400 - 2 * Y_PADDING) :=
  ⟨by rw [Y_PADDING]; norm_num, by rw [Y_PADDING]; norm_num, by rw [Y_PADDING]; norm_num,
   freq_round_trip 150 400 (by rw [Y_PADDING]; norm_num) (by rw [Y_PADDING]; norm_num)
     (by rw [Y_PADDING]; norm_num)⟩

/-! ### Controller lemmas -/

lemma genLoop_length (r : ℕ → ℝ) (count : ℕ) (w h xs ah : ℝ) (fuel : ℕ) :
    ∀ (i k : ℕ) (t : ℝ), (genLoop r count w h xs ah fuel i k t).length = fuel := by
  induction fuel with
  | zero => intro i k t; rfl
  | succ n ih =>
    intro i k t
    simp only [genLoop, List.length_cons]
    rw [ih]

lemma generateSequence_length (count : ℕ) (w h : ℝ) (r : ℕ → ℝ) :
    (generateSequence count w h r).length = count := by
  simp only [generateSequence]
  exact genLoop_length _ _ _ _ _ _ _ _ _ _

lemma scoreFailed_iff (sc : Score) :
    scoreFailed sc = true ↔ (sc.total < 50 ∨ sc.position < 30 ∨ sc.rhythm < 30) := by
  simp [scoreFailed, Bool.or_eq_true, decide_eq_true_eq, or_assoc]

/-- Claim C2: an explicit "next round" command taken with a computed score
resets the round to 1 when the score fails the 50/30/30 gate and
increments it otherwise, and in both cases generates a fresh sequence of
length `2 + newRound` and returns to `Playback`. -/
theorem next_round_spec (r : ℕ → ℝ) (st : AppState) (sc : Score)
    (_hstate : st.gameState = GameState.Scoring) (hscore : st.score = some sc) :
    (handleNextRound r st).round
        = (if sc.total < 50 ∨ sc.position < 30 ∨ sc.rhythm < 30 then 1 else st.round + 1) ∧
    (handleNextRound r st).sequence.length = 2 + (handleNextRound r st).round ∧
    (handleNextRound r st).gameState = GameState.Playback := by
  by_cases hfail : sc.total < 50 ∨ sc.position < 30 ∨ sc.rhythm < 30
  · have hb : scoreFailed sc = true := (scoreFailed_iff sc).mpr hfail
    refine ⟨?_, ?_, rfl⟩
    · simp [handleNextRound, hscore, hb, startNewRound, hfail]
    · simp [handleNextRound, hscore, hb, startNewRound, generateSequence_length]
  · have hb : scoreFailed sc = false := by
      rcases hb : scoreFailed sc with _ | _
      · rfl
      · exact absurd ((scoreFailed_iff sc).mp hb) hfail
    refine ⟨?_, ?_, rfl⟩
    · simp [handleNextRound, hscore, hb, startNewRound, hfail]
    · simp [handleNextRound, hscore, hb, startNewRound, generateSequence_length]

/-- Witness for C2: a passing score `⟨85, 72, 78⟩` in the `Scoring` state
at round 3 advances to round 4 with 6 targets and `Playback`. -/
theorem next_round_spec_witness :
    (handleNextRound (fun _ => 0)
        ⟨GameState.Scoring, [], [], some ⟨85, 72, 78⟩, 3, 800, 600⟩).round
      = (if (78 : ℤ) < 50 ∨ (85 : ℤ) < 30 ∨ (72 : ℤ) < 30 then 1 else 3 + 1) ∧
    (handleNextRound (fun _ => 0)
        ⟨GameState.Scoring, [], [], some ⟨85, 72, 78⟩, 3, 800, 600⟩).sequence.length
      = 2 + (handleNextRound (fun _ => 0)
        ⟨GameState.Scoring, [], [], some ⟨85, 72, 78⟩, 3, 800, 600⟩).round ∧
    (handleNextRound (fun _ => 0)
        ⟨GameState.Scoring, [], [], some ⟨85, 72, 78⟩, 3, 800, 600⟩).gameState
      = GameState.Playback :=
  next_round_spec (fun _ => 0) ⟨GameState.Scoring, [], [], some ⟨85, 72, 78⟩, 3, 800, 600⟩
    ⟨85, 72, 78⟩ rfl rfl

/-! ### Scorer total composition (claim C1) -/

/-- A single-element target list used at concrete scoring inputs. -/
noncomputable def cexTarget : CircleDefinition := ⟨0, 0, 0, "", 261.63, 0⟩

/-- A click 200px to the right of `cexTarget`, at time 0. -/
noncomputable def cexClick : PlayerClick := ⟨200, 0, 0⟩

lemma clickDistance_cex : clickDistance cexClick cexTarget = 200 := by
  unfold clickDistance hypot cexClick cexTarget
  simp only
  rw [show ((200 : ℝ) - 0) ^ 2 + ((0 : ℝ) - 0) ^ 2 = 200 ^ 2 by norm_num]
  exact Real.sqrt_sq (by norm_num)

lemma avgPositionScore_cex : avgPositionScore [cexTarget] [cexClick] 150 = 0 := by
  unfold avgPositionScore totalPositionScore
  simp only [matchClicks, findClosestAux, clickDistance_cex]
  rw [max_eq_left (by norm_num : (100 : ℝ) * (1 - 200 / 150) ≤ 0)]
  norm_num

lemma avgRhythmScore_cex : avgRhythmScore [cexTarget] [cexClick] 300 = 100 := by
  simp [avgRhythmScore]

/-- Claim C1 counterexample: with a single target and a single distant
click, the code sets `total` to the rounded position sub-score alone
(here 0), not to the rounded mean of the position and the defaulted
rhythm sub-scores (which would be 50). -/
theorem total_mean_cex :
    (calculateScore [cexTarget] [cexClick] 150 300).total ≠
      round ((avgPositionScore [cexTarget] [cexClick] 150
              + avgRhythmScore [cexTarget] [cexClick] 300) / 2) := by
  have hl : (calculateScore [cexTarget] [cexClick] 150 300).total = 0 := by
    simp only [calculateScore, List.length_cons, List.length_nil, avgPositionScore_cex]
    norm_num
  have hr : round ((avgPositionScore [cexTarget] [cexClick] 150
              + avgRhythmScore [cexTarget] [cexClick] 300) / 2) = 50 := by
    rw [avgPositionScore_cex, avgRhythmScore_cex]
    rw [show ((0 : ℝ) + 100) / 2 = ((50 : ℤ) : ℝ) by norm_num, round_intCast]
  rw [hl, hr]
  norm_num

/-- Claim C1 (amended): for non-empty lists the `total` field is the
rounded mean of the unrounded position and rhythm sub-scores whenever
both lists have at least two elements; when the rhythm sub-score is
defaulted to 100 (fewer than 2 targets or fewer than 2 inputs), `total`
is the rounded position sub-score alone. -/
theorem total_is_mean_or_position (s : List CircleDefinition) (c : List PlayerClick)
    (mp mr : ℝ) (hs : s ≠ []) (hc : c ≠ []) :
    (calculateScore s c mp mr).total =
      if 1 < s.length ∧ 1 < c.length then
        round ((avgPositionScore s c mp + avgRhythmScore s c mr) / 2)
      else round (avgPositionScore s c mp) := by
  have h1 : ¬(c.length = 0 ∨ s.length = 0) := by
    push_neg
    exact ⟨fun h => hc (List.length_eq_zero.mp h), fun h => hs (List.length_eq_zero.mp h)⟩
  unfold calculateScore
  rw [if_neg h1]
  split_ifs <;> rfl

/-- Witness for the amended C1 at a concrete single-target input. -/
theorem total_is_mean_or_position_witness :
    ([cexTarget] ≠ ([] : List CircleDefinition)) ∧ ([cexClick] ≠ ([] : List PlayerClick)) ∧
    (calculateScore [cexTarget] [cexClick] 150 300).total =
      if 1 < ([cexTarget] : List CircleDefinition).length ∧
          1 < ([cexClick] : List PlayerClick).length then
        round ((avgPositionScore [cexTarget] [cexClick] 150
                + avgRhythmScore [cexTarget] [cexClick] 300) / 2)
      else round (avgPositionScore [cexTarget] [cexClick] 150) :=
  ⟨by simp, by simp,
   total_is_mean_or_position [cexTarget] [cexClick] 150 300 (by simp) (by simp)⟩

/-! ### Frame property of the matching loop (claim C10) -/

lemma scoreStep_frame (mp : ℝ) (st : ScoreState) (click : PlayerClick) :
    (scoreStep mp st click).sequence = st.sequence ∧
    (scoreStep mp st click).playerClicks = st.playerClicks := by
  cases hu : st.unmatchedSequence with
  | nil => simp [scoreStep, hu]
  | cons u us => simp [scoreStep, hu]

lemma foldl_scoreStep_frame (mp : ℝ) (clicks : List PlayerClick) :
    ∀ st : ScoreState,
      (clicks.foldl (scoreStep mp) st).sequence = st.sequence ∧
      (clicks.foldl (scoreStep mp) st).playerClicks = st.playerClicks := by
  induction clicks with
  | nil => intro st; exact ⟨rfl, rfl⟩
  | cons a l ih =>
    intro st
    rw [List.foldl_cons]
    obtain ⟨h1, h2⟩ := ih (scoreStep mp st a)
    obtain ⟨g1, g2⟩ := scoreStep_frame mp st a
    exact ⟨h1.trans g1, h2.trans g2⟩

/-- The state-passing loop agrees with the accumulator form used inside
`calculateScore`. -/
lemma foldl_scoreStep_agrees (mp : ℝ) (clicks : List PlayerClick) :
    ∀ st : ScoreState,
      ((clicks.foldl (scoreStep mp) st).totalPositionScore,
       (clicks.foldl (scoreStep mp) st).unmatchedSequence)
        = matchClicks mp clicks (st.totalPositionScore, st.unmatchedSequence) := by
  induction clicks with
  | nil => intro st; simp [matchClicks]
  | cons a l ih =>
    intro st
    rw [List.foldl_cons]
    cases hu : st.unmatchedSequence with
    | nil =>
      rw [show scoreStep mp st a = st by simp [scoreStep, hu]]
      rw [ih st, hu]
      simp [matchClicks]
    | cons u us =>
      have hstep : scoreStep mp st a =
          { st with
            totalPositionScore := st.totalPositionScore
              + max 0 (100 * (1 - (findClosestAux a us 1 (0, clickDistance a u)).2 / mp)),
            unmatchedSequence := (u :: us).eraseIdx (findClosestAux a us 1 (0, clickDistance a u)).1 } := by
        simp [scoreStep, hu]
      rw [hstep, ih _]
      simp [matchClicks, hu]

/-- The state-passing `calculateScoreSt` returns the same score as `calculateScore`. -/
lemma calculateScoreSt_fst (s : List CircleDefinition) (c : List PlayerClick) (mp mr : ℝ) :
    (calculateScoreSt s c mp mr).1 = calculateScore s c mp mr := by
  have hag := foldl_scoreStep_agrees mp c (⟨s, c, s, 0⟩ : ScoreState)
  dsimp only at hag
  have htot : (List.foldl (scoreStep mp) (⟨s, c, s, 0⟩ : ScoreState) c).totalPositionScore
      = totalPositionScore s c mp := by
    unfold totalPositionScore
    exact congrArg Prod.fst hag
  simp only [calculateScoreSt, calculateScore, avgPositionScore, htot]
  split_ifs <;> rfl

/-- Claim C10: `calculateScore` leaves both of its list arguments
unchanged — the greedy matcher splices only the internal copy, so after
the call the caller-visible target list and input list are exactly the
initial ones. -/
theorem score_args_unchanged (s : List CircleDefinition) (c : List PlayerClick) (mp mr : ℝ) :
    (calculateScoreSt s c mp mr).2.sequence = s ∧
    (calculateScoreSt s c mp mr).2.playerClicks = c := by
  obtain ⟨hf1, hf2⟩ := foldl_scoreStep_frame mp c (⟨s, c, s, 0⟩ : ScoreState)
  dsimp only at hf1 hf2
  simp only [calculateScoreSt]
  split_ifs <;> exact ⟨by simp [hf1], by simp [hf2]⟩

/-! ### Timing of generated sequences (claim C6) -/

lemma rhythm_interval_pos (j : ℕ) (hj : j < 3) : 0 < RHYTHM_INTERVALS.getD j 0 := by
  have hq : (0 : ℝ) < QUARTER_NOTE_MS := by
    rw [QUARTER_NOTE_MS, GAME_BPM]; norm_num
  have he : (0 : ℝ) < EIGHTH_NOTE_MS := by
    rw [EIGHTH_NOTE_MS]; linarith
  interval_cases j
  · simpa [RHYTHM_INTERVALS] using hq
  · simpa [RHYTHM_INTERVALS] using hq
  · simpa [RHYTHM_INTERVALS] using he

/-- Any rhythm interval drawn from a `Math.random` value in `[0, 1)` is
positive. -/
lemma drawn_interval_pos (r : ℕ → ℝ) (hr : ∀ n, 0 ≤ r n ∧ r n < 1) (m : ℕ) :
    0 < RHYTHM_INTERVALS.getD (Nat.floor (r m * (RHYTHM_INTERVALS.length : ℝ))) 0 := by
  apply rhythm_interval_pos
  have h0 := (hr m).1
  have h1 := (hr m).2
  have hlen : ((RHYTHM_INTERVALS.length : ℕ) : ℝ) = 3 := by norm_num [RHYTHM_INTERVALS]
  rw [hlen, Nat.floor_lt (by positivity)]
  push_cast
  nlinarith

lemma genLoop_time_chain (r : ℕ → ℝ) (hr : ∀ n, 0 ≤ r n ∧ r n < 1)
    (count : ℕ) (w h xs ah : ℝ) (fuel : ℕ) :
    ∀ (i k : ℕ) (t : ℝ), 1 ≤ i →
      List.Chain (· < ·) t
        ((genLoop r count w h xs ah fuel i k t).map CircleDefinition.time) := by
  induction fuel with
  | zero => intro i k t _; exact List.Chain.nil
  | succ n ih =>
    intro i k t hi
    have hipos : 0 < i := hi
    simp only [genLoop, hipos, if_true, List.map_cons]
    refine List.Chain.cons ?_ (ih _ _ _ (by omega))
    have := drawn_interval_pos r hr ((if count = 1 then k else k + 1) + 2)
    linarith

/-- Claim C6: for `count ≥ 1` and any bounded `Math.random` stream, the
generated sequence starts at time offset 0 and the time offsets are
strictly increasing. -/
theorem generated_times_strict_mono (r : ℕ → ℝ) (count : ℕ) (w h : ℝ)
    (hr : ∀ n, 0 ≤ r n ∧ r n < 1) (hc : 1 ≤ count) :
    ((generateSequence count w h r).map CircleDefinition.time).head? = some 0 ∧
    ((generateSequence count w h r).map CircleDefinition.time).Chain' (· < ·) := by
  obtain ⟨m, rfl⟩ : ∃ m, count = m + 1 := ⟨count - 1, by omega⟩
  simp only [generateSequence, genLoop, Nat.lt_irrefl, if_false, List.map_cons]
  refine ⟨rfl, ?_⟩
  show List.Chain (· < ·) 0 _
  exact genLoop_time_chain r hr _ _ _ _ _ _ _ _ _ (le_refl 1)

/-- Witness for C6 at `count = 3`, an 800×600 canvas, and the constant-0
random stream. -/
theorem generated_times_strict_mono_witness :
    (∀ n : ℕ, 0 ≤ (fun _ : ℕ => (0 : ℝ)) n ∧ (fun _ : ℕ => (0 : ℝ)) n < 1) ∧
    (((generateSequence 3 800 600 (fun _ => 0)).map CircleDefinition.time).head? = some 0 ∧
     ((generateSequence 3 800 600 (fun _ => 0)).map CircleDefinition.time).Chain' (· < ·)) :=
  ⟨fun _ => ⟨le_refl 0, by norm_num⟩,
   generated_times_strict_mono (fun _ => 0) 3 800 600 (fun _ => ⟨le_refl 0, by norm_num⟩)
     (by norm_num)⟩

/-! ### Perfect input scores 100/100/100 (claim C5) -/

def clickPos (c : PlayerClick) : ℝ × ℝ := (c.x, c.y)

def circlePos (t : CircleDefinition) : ℝ × ℝ := (t.x, t.y)

lemma clickDistance_nonneg (c : PlayerClick) (t : CircleDefinition) :
    0 ≤ clickDistance c t :=
  Real.sqrt_nonneg _

lemma clickDistance_eq_zero (c : PlayerClick) (t : CircleDefinition) :
    clickDistance c t = 0 ↔ (t.x, t.y) = (c.x, c.y) := by
  unfold clickDistance hypot
  rw [Real.sqrt_eq_zero']
  constructor
  · intro hle
    have hx2 : (c.x - t.x) ^ 2 = 0 :=
      le_antisymm (by nlinarith [sq_nonneg (c.y - t.y)]) (sq_nonneg _)
    have hy2 : (c.y - t.y) ^ 2 = 0 :=
      le_antisymm (by nlinarith [sq_nonneg (c.x - t.x)]) (sq_nonneg _)
    have hx : c.x - t.x = 0 := (pow_eq_zero_iff (by norm_num : (2 : ℕ) ≠ 0)).mp hx2
    have hy : c.y - t.y = 0 := (pow_eq_zero_iff (by norm_num : (2 : ℕ) ≠ 0)).mp hy2
    simp only [Prod.mk.injEq]
    constructor <;> linarith
  · intro hp
    simp only [Prod.mk.injEq] at hp
    rw [hp.1, hp.2]
    norm_num

lemma findClosestAux_le (click : PlayerClick) (rest : List CircleDefinition) :
    ∀ (i : ℕ) (best : ℕ × ℝ),
      (findClosestAux click rest i best).2 ≤ best.2 ∧
      ∀ t ∈ rest, (findClosestAux click rest i best).2 ≤ clickDistance click t := by
  induction rest with
  | nil =>
    intro i best
    exact ⟨le_refl _, fun t ht => absurd ht (List.not_mem_nil t)⟩
  | cons u us ih =>
    intro i best
    simp only [findClosestAux]
    by_cases hlt : clickDistance click u < best.2
    · rw [if_pos hlt]
      obtain ⟨h1, h2⟩ := ih (i + 1) (i, clickDistance click u)
      refine ⟨le_trans h1 (le_of_lt hlt), ?_⟩
      intro t ht
      rcases List.mem_cons.mp ht with h | h
      · rw [h]; exact h1
      · exact h2 t h
    · rw [if_neg hlt]
      obtain ⟨h1, h2⟩ := ih (i + 1) best
      refine ⟨h1, ?_⟩
      intro t ht
      rcases List.mem_cons.mp ht with h | h
      · rw [h]; exact le_trans h1 (not_lt.mp hlt)
      · exact h2 t h

lemma findClosestAux_mem (click : PlayerClick) (d : CircleDefinition)
    (rest : List CircleDefinition) :
    ∀ (i : ℕ) (best : ℕ × ℝ),
      findClosestAux click rest i best = best ∨
      ∃ j : ℕ, j < rest.length ∧
        findClosestAux click rest i best
          = (i + j, clickDistance click (rest.getD j d)) := by
  induction rest with
  | nil => intro i best; exact Or.inl rfl
  | cons u us ih =>
    intro i best
    simp only [findClosestAux]
    by_cases hlt : clickDistance click u < best.2
    · rw [if_pos hlt]
      rcases ih (i + 1) (i, clickDistance click u) with h | ⟨j, hj, hres⟩
      · right
        exact ⟨0, by simp, by rw [h]; simp⟩
      · right
        refine ⟨j + 1, by simp only [List.length_cons]; omega, ?_⟩
        rw [hres, List.getD_cons_succ]
        have hidx : i + 1 + j = i + (j + 1) := by omega
        rw [hidx]
    · rw [if_neg hlt]
      rcases ih (i + 1) best with h | ⟨j, hj, hres⟩
      · exact Or.inl h
      · right
        refine ⟨j + 1, by simp only [List.length_cons]; omega, ?_⟩
        rw [hres, List.getD_cons_succ]
        have hidx : i + 1 + j = i + (j + 1) := by omega
        rw [hidx]

/-- When some circle in the pool is at distance 0, the first-minimum scan
returns distance 0. -/
lemma findClosestAux_best_zero (click : PlayerClick) (u : CircleDefinition)
    (us : List CircleDefinition)
    (hex : ∃ tc ∈ u :: us, clickDistance click tc = 0) :
    (findClosestAux click us 1 (0, clickDistance click u)).2 = 0 := by
  obtain ⟨tc, htm, ht0⟩ := hex
  obtain ⟨hle1, hle2⟩ := findClosestAux_le click us 1 (0, clickDistance click u)
  refine le_antisymm ?_ ?_
  · rcases List.mem_cons.mp htm with h | h
    · rw [← ht0, h]; exact hle1
    · rw [← ht0]; exact hle2 tc h
  · rcases findClosestAux_mem click u us 1 (0, clickDistance click u) with h | ⟨j, hj, hres⟩
    · rw [h]; exact clickDistance_nonneg click u
    · rw [hres]; exact clickDistance_nonneg click _

/-- The scan's chosen index is in range and points at a circle whose
distance is the scan's minimum. -/
lemma findClosest_spec (click : PlayerClick) (u : CircleDefinition)
    (us : List CircleDefinition) :
    (findClosestAux click us 1 (0, clickDistance click u)).1 < (u :: us).length ∧
    clickDistance click
        ((u :: us).getD (findClosestAux click us 1 (0, clickDistance click u)).1 u)
      = (findClosestAux click us 1 (0, clickDistance click u)).2 := by
  rcases findClosestAux_mem click u us 1 (0, clickDistance click u) with h | ⟨j, hj, hres⟩
  · rw [h]
    exact ⟨by simp, by simp⟩
  · rw [hres]
    refine ⟨by simp only [List.length_cons]; omega, ?_⟩
    dsimp only
    rw [Nat.add_comm 1 j, List.getD_cons_succ]

lemma erase_chosen_perm (l : List CircleDefinition) (d : CircleDefinition) (i : ℕ)
    (hi : i < l.length) :
    List.Perm l ((l.getD i d) :: l.eraseIdx i) := by
  classical
  have hget : l.getD i d = l.get ⟨i, hi⟩ := List.getD_eq_getElem l d hi
  rw [hget]
  refine (List.perm_cons_erase (List.get_mem l i hi)).trans (List.Perm.cons _ ?_)
  rw [List.get_eq_getElem]
  exact List.erase_getElem hi

lemma erase_chosen_pos_multiset (l : List CircleDefinition) (d : CircleDefinition) (i : ℕ)
    (hi : i < l.length) :
    ((l.map circlePos : List (ℝ × ℝ)) : Multiset (ℝ × ℝ))
      = circlePos (l.getD i d)
          ::ₘ (((l.eraseIdx i).map circlePos : List (ℝ × ℝ)) : Multiset (ℝ × ℝ)) := by
  have h := Multiset.coe_eq_coe.mpr ((erase_chosen_perm l d i hi).map circlePos)
  rw [h, List.map_cons, Multiset.cons_coe]

/-- Greedy matching over a pool that contains, as a multiset, a circle at
each click's exact position: every click scores 100. -/
lemma matchClicks_perfect (mp : ℝ) (clicks : List PlayerClick) :
    ∀ (unmatched : List CircleDefinition) (acc : ℝ),
      ((clicks.map clickPos : List (ℝ × ℝ)) : Multiset (ℝ × ℝ))
        ≤ ((unmatched.map circlePos : List (ℝ × ℝ)) : Multiset (ℝ × ℝ)) →
      (matchClicks mp clicks (acc, unmatched)).1 = acc + 100 * clicks.length := by
  induction clicks with
  | nil => intro unmatched acc _; simp [matchClicks]
  | cons click rest ih =>
    intro unmatched acc hsub
    cases unmatched with
    | nil =>
      exfalso
      simp only [List.map_cons, List.map_nil] at hsub
      rw [← Multiset.cons_coe] at hsub
      have hmem := Multiset.mem_of_le hsub (Multiset.mem_cons_self (clickPos click) _)
      simp at hmem
    | cons u us =>
      have hmem : clickPos click ∈ ((u :: us).map circlePos) := by
        have h1 : clickPos click
            ∈ (((click :: rest).map clickPos : List (ℝ × ℝ)) : Multiset (ℝ × ℝ)) := by
          simp
        simpa using Multiset.mem_of_le hsub h1
      obtain ⟨tc, htc_mem, htc_pos⟩ := List.mem_map.mp hmem
      have htc0 : clickDistance click tc = 0 :=
        (clickDistance_eq_zero click tc).mpr (by simpa [circlePos, clickPos] using htc_pos)
      have hb0 : (findClosestAux click us 1 (0, clickDistance click u)).2 = 0 :=
        findClosestAux_best_zero click u us ⟨tc, htc_mem, htc0⟩
      obtain ⟨hidx, hchosen⟩ := findClosest_spec click u us
      have hchosen_pos :
          circlePos ((u :: us).getD
              (findClosestAux click us 1 (0, clickDistance click u)).1 u)
            = clickPos click := by
        have h0 : clickDistance click ((u :: us).getD
            (findClosestAux click us 1 (0, clickDistance click u)).1 u) = 0 := by
          rw [hchosen, hb0]
        have h2 := (clickDistance_eq_zero click _).mp h0
        simpa [circlePos, clickPos] using h2
      have hsub' :
          ((rest.map clickPos : List (ℝ × ℝ)) : Multiset (ℝ × ℝ))
            ≤ ((((u :: us).eraseIdx
                  (findClosestAux click us 1 (0, clickDistance click u)).1).map circlePos :
                List (ℝ × ℝ)) : Multiset (ℝ × ℝ)) := by
        have hrw := erase_chosen_pos_multiset (u :: us) u
          (findClosestAux click us 1 (0, clickDistance click u)).1 hidx
        rw [hrw, hchosen_pos] at hsub
        simp only [List.map_cons] at hsub
        rw [← Multiset.cons_coe] at hsub
        exact (Multiset.cons_le_cons_iff (clickPos click)).mp hsub
      simp only [matchClicks]
      rw [hb0]
      rw [show max (0 : ℝ) (100 * (1 - 0 / mp)) = 100 by norm_num]
      rw [ih _ (acc + 100) hsub']
      simp only [List.length_cons]
      push_cast
      ring

/-- The per-interval rhythm scores over identical interval lists are all
100. -/
lemma zip_self_rhythm_sum (mr : ℝ) (l : List ℝ) :
    (List.zipWith (fun p o => max 0 (100 * (1 - |p - o| / mr))) l l).sum
      = 100 * l.length := by
  induction l with
  | nil => simp
  | cons a l ih =>
    simp only [List.zipWith_cons_cons, List.sum_cons, List.length_cons, ih]
    rw [show max (0 : ℝ) (100 * (1 - |a - a| / mr)) = 100 by simp]
    push_cast
    ring

/-- Claim C5 (amended): for non-empty lists of equal length where each
input sits exactly at its target's position and the input inter-arrival
intervals exactly reproduce the targets', `calculateScore` returns
position 100, rhythm 100 and total 100; the error tolerances are
positive per the caller contract. -/
theorem perfect_input_score (s : List CircleDefinition) (c : List PlayerClick) (mp mr : ℝ)
    (hs : s ≠ []) (hlen : c.length = s.length)
    (hpos : c.map clickPos = s.map circlePos)
    (hint : playerIntervals c = originalIntervals s)
    (_hmp : 0 < mp) (_hmr : 0 < mr) :
    calculateScore s c mp mr = ⟨100, 100, 100⟩ := by
  have hn : s.length ≠ 0 := fun h => hs (List.length_eq_zero.mp h)
  have hcn : c.length ≠ 0 := by rw [hlen]; exact hn
  have hsub : ((c.map clickPos : List (ℝ × ℝ)) : Multiset (ℝ × ℝ))
      ≤ ((s.map circlePos : List (ℝ × ℝ)) : Multiset (ℝ × ℝ)) := le_of_eq (by rw [hpos])
  have htot : totalPositionScore s c mp = 100 * c.length := by
    unfold totalPositionScore
    rw [matchClicks_perfect mp c s 0 hsub]
    ring
  have havg : avgPositionScore s c mp = 100 := by
    unfold avgPositionScore
    rw [htot, hlen]
    have : ((s.length : ℕ) : ℝ) ≠ 0 := Nat.cast_ne_zero.mpr hn
    field_simp
  have hcond1 : ¬(c.length = 0 ∨ s.length = 0) := by
    push_neg; exact ⟨hcn, hn⟩
  have h100 : round (100 : ℝ) = 100 := round_hundred
  by_cases h2 : 1 < s.length
  · have hc2 : 1 < c.length := by rw [hlen]; exact h2
    have hleno : (originalIntervals s).length = s.length - 1 := by
      cases s with
      | nil => simp at hs
      | cons s0 srest => simp [originalIntervals]
    have hrhy : avgRhythmScore s c mr = 100 := by
      unfold avgRhythmScore
      rw [if_pos ⟨h2, hc2⟩, hint, zip_self_rhythm_sum, hleno]
      have hcast : ((s.length - 1 : ℕ) : ℝ) = (s.length : ℝ) - 1 := by
        have h1 : 1 ≤ s.length := by omega
        push_cast [h1]
        ring
      rw [hcast]
      have hne : ((s.length : ℝ) - 1) ≠ 0 := by
        have : (2 : ℝ) ≤ (s.length : ℝ) := by exact_mod_cast h2
        intro h
        linarith
      field_simp
    unfold calculateScore
    rw [if_neg hcond1, if_pos ⟨h2, hc2⟩, havg, hrhy]
    have : round (((100 : ℝ) + 100) / 2) = 100 := by
      rw [show ((100 : ℝ) + 100) / 2 = 100 by norm_num]
      exact h100
    rw [h100, this]
  · have hns2 : ¬(1 < s.length ∧ 1 < c.length) := fun h => h2 h.1
    unfold calculateScore
    rw [if_neg hcond1, if_neg hns2, havg, h100]

/-- Claim C5 counterexample: with both lists empty every hypothesis of
the claim holds vacuously, yet the score is all-zero, not 100/100/100. -/
theorem perfect_input_cex :
    (([] : List PlayerClick).map clickPos = ([] : List CircleDefinition).map circlePos) ∧
    playerIntervals [] = originalIntervals [] ∧
    ([] : List PlayerClick).length = ([] : List CircleDefinition).length ∧
    calculateScore [] [] 150 300 ≠ ⟨100, 100, 100⟩ := by
  refine ⟨rfl, rfl, rfl, ?_⟩
  rw [show calculateScore [] [] 150 300 = ⟨0, 0, 0⟩ by simp [calculateScore]]
  simp

/-- Witness for the amended C5: a single target at (10, 20) with a single
click exactly on it. -/
theorem perfect_input_score_witness :
    ([(⟨0, 10, 20, "", 261.63, 0⟩ : CircleDefinition)] ≠ ([] : List CircleDefinition)) ∧
    (0 : ℝ) < 150 ∧ (0 : ℝ) < 300 ∧
    calculateScore [(⟨0, 10, 20, "", 261.63, 0⟩ : CircleDefinition)]
        [(⟨10, 20, 0⟩ : PlayerClick)] 150 300 = ⟨100, 100, 100⟩ :=
  ⟨by simp, by norm_num, by norm_num,
   perfect_input_score [⟨0, 10, 20, "", 261.63, 0⟩] [⟨10, 20, 0⟩] 150 300
     (by simp) rfl rfl rfl (by norm_num) (by norm_num)⟩

end Memorhythm
